import Mathlib

/-!
Shallow embedding of the Meu Jovinho game backend (src/backend/server.py).

The Mongo collection `game_data_collection` is modelled as a `List GameData`
of documents; `find_one` is `List.find?` on the player identifier,
`update_one` with `upsert=True` replaces the first matching document or
appends, and `delete_one` removes the first matching document.  Python's
unbounded integers become `Int`; `datetime.now()` becomes an explicit
`now : Nat` parameter; the float division in the statistics endpoint is
modelled exactly over `ℚ`.
-/

/-- The `GameData` pydantic model (server.py lines 32–39): one stored
document per player. -/
structure GameData where
  player_id : String
  current_level : Int
  max_level : Int
  total_score : Int
  items_collected : Int
  games_played : Int
  last_played : Option Nat
deriving Repr, DecidableEq

/-- The `GameSession` pydantic model (server.py lines 49–55): a reported
play session. -/
structure GameSession where
  player_id : String
  level : Int
  score : Int
  items_collected : Int
  completed : Bool
  time_played : Option Int
deriving Repr, DecidableEq

/-- `update_one({"player_id": pid}, {"$set": doc}, upsert=True)`: replace
the first document with the same player identifier, or append. -/
def upsert : List GameData → GameData → List GameData
  | [], d => [d]
  | x :: xs, d =>
      if x.player_id == d.player_id then d :: xs else x :: upsert xs d

/-- `get_game_data` (server.py lines 71–94): the stored document, or the
default record for a new player. -/
def getGameData (st : List GameData) (pid : String) : GameData :=
  match st.find? (fun d => d.player_id == pid) with
  | none => ⟨pid, 1, 1, 0, 0, 0, none⟩
  | some d => d

/-- `save_game_data` (server.py lines 96–118): stamp `last_played` with the
current time, then upsert the full document. -/
def saveGameData (st : List GameData) (gd : GameData) (now : Nat) :
    List GameData :=
  upsert st { gd with last_played := some now }

/-- `record_game_session` (server.py lines 120–165): merge a session into
the stored record (or create one), returning the new store and the
`updated_data` of the response. -/
def recordGameSession (st : List GameData) (s : GameSession) (now : Nat) :
    List GameData × GameData :=
  match st.find? (fun d => d.player_id == s.player_id) with
  | none =>
      let nd : GameData :=
        { player_id := s.player_id
          current_level := if s.completed then s.level else 1
          max_level := if s.completed then s.level else 1
          total_score := s.score
          items_collected := s.items_collected
          games_played := 1
          last_played := some now }
      (upsert st nd, nd)
  | some cur =>
      let nd : GameData :=
        { player_id := s.player_id
          current_level := if s.completed then s.level else cur.current_level
          max_level :=
            if s.completed then max s.level cur.max_level else cur.max_level
          total_score := cur.total_score + s.score
          items_collected := cur.items_collected + s.items_collected
          games_played := cur.games_played + 1
          last_played := some now }
      (upsert st nd, nd)

/-- The Mongo sort key of `get_leaderboard`: `max_level` descending, ties
broken by `total_score` descending. -/
def lbRel (a b : GameData) : Prop :=
  b.max_level < a.max_level ∨
    (a.max_level = b.max_level ∧ b.total_score ≤ a.total_score)

instance : DecidableRel lbRel := fun a b => by
  unfold lbRel; exact inferInstance

instance : IsTotal GameData lbRel where
  total a b := by
    unfold lbRel
    rcases lt_trichotomy a.max_level b.max_level with h | h | h
    · exact Or.inr (Or.inl h)
    · rcases le_total b.total_score a.total_score with h2 | h2
      · exact Or.inl (Or.inr ⟨h, h2⟩)
      · exact Or.inr (Or.inr ⟨h.symm, h2⟩)
    · exact Or.inl (Or.inl h)

instance : IsTrans GameData lbRel where
  trans a b c hab hbc := by
    unfold lbRel at *
    rcases hab with h1 | ⟨h1, h1s⟩ <;> rcases hbc with h2 | ⟨h2, h2s⟩
    · exact Or.inl (h2.trans h1)
    · exact Or.inl (h2 ▸ h1)
    · exact Or.inl (h1 ▸ h2)
    · exact Or.inr ⟨h1.trans h2, h2s.trans h1s⟩

/-- One row of the formatted leaderboard response
(server.py lines 180–190). -/
structure LBEntry where
  rank : Nat
  player_id : String
  max_level : Int
  total_score : Int
  items_collected : Int
  games_played : Int
  last_played : Option Nat
deriving Repr, DecidableEq

/-- The `for i, player in enumerate(leaderboard)` loop: annotate each
document with `rank = i + 1`. -/
def annotateRanks : Nat → List GameData → List LBEntry
  | _, [] => []
  | i, d :: ds =>
      ⟨i + 1, d.player_id, d.max_level, d.total_score, d.items_collected,
        d.games_played, d.last_played⟩ :: annotateRanks (i + 1) ds

/-- `get_leaderboard` (server.py lines 168–197): sort by the leaderboard
key, take `limit`, annotate sequential ranks; also return the total
player count. -/
def getLeaderboard (st : List GameData) (limit : Nat) :
    List LBEntry × Nat :=
  (annotateRanks 0 ((List.insertionSort lbRel st).take limit), st.length)

/-- The `$or` filter of `get_player_rank` (server.py lines 211–219):
`x` has strictly better stats than player `p`. -/
def betterThan (p x : GameData) : Bool :=
  decide (p.max_level < x.max_level ∨
    (x.max_level = p.max_level ∧ p.total_score < x.total_score))

/-- `get_player_rank` (server.py lines 199–236): `none` when the player has
no stored document, otherwise `(better count + 1, total players)`. -/
def getPlayerRank (st : List GameData) (pid : String) :
    Option (Nat × Nat) :=
  match st.find? (fun d => d.player_id == pid) with
  | none => none
  | some d => some (st.countP (betterThan d) + 1, st.length)

/-- The `$group` aggregation pipeline of `get_game_statistics`
(server.py lines 248–258): empty collection gives an empty result list,
otherwise the sums of `total_score`, `items_collected`, `games_played`
and the maximum of `max_level`. -/
def aggregateStats : List GameData → Option (Int × Int × Int × Int)
  | [] => none
  | d :: ds =>
    match aggregateStats ds with
    | none => some (d.total_score, d.items_collected, d.games_played, d.max_level)
    | some (s, i, g, m) =>
        some (d.total_score + s, d.items_collected + i, d.games_played + g,
          max d.max_level m)

/-- The `/api/stats` response shape (server.py lines 264–280). -/
structure GameStats where
  total_players : Nat
  total_score : Int
  total_items_collected : Int
  total_games_played : Int
  max_level_reached : Int
  average_score_per_player : ℚ
deriving Repr, DecidableEq

/-- `get_game_statistics` (server.py lines 239–282): aggregate over all
documents; on an empty collection return zeros with
`max_level_reached = 1`.  The Python float division
`total_score / max(total_players, 1)` is modelled exactly in `ℚ`. -/
def getGameStatistics (st : List GameData) : GameStats :=
  match aggregateStats st with
  | none => ⟨0, 0, 0, 0, 1, 0⟩
  | some (s, i, g, m) =>
      ⟨st.length, s, i, g, m, (s : ℚ) / (max st.length 1 : ℚ)⟩

/-- `delete_one({"player_id": pid})` as used by `reset_player_data`
(server.py lines 285–299): remove the first matching document and report
the deleted count (0 or 1). -/
def deleteOne : List GameData → String → List GameData × Nat
  | [], _ => ([], 0)
  | d :: ds, pid =>
      if d.player_id == pid then (ds, 1)
      else
        let r := deleteOne ds pid
        (d :: r.1, r.2)

/-! ### Store lemmas -/

theorem find?_upsert_self (st : List GameData) (d : GameData) :
    (upsert st d).find? (fun x => x.player_id == d.player_id) = some d := by
  induction st with
  | nil => simp [upsert, List.find?]
  | cons x xs ih =>
    by_cases h : x.player_id == d.player_id
    · simp [upsert, h, List.find?]
    · have hb : (x.player_id == d.player_id) = false := by simpa using h
      simp only [upsert, hb, Bool.false_eq_true, if_false]
      rw [List.find?_cons_of_neg _ (by simp [hb])]
      exact ih

theorem find?_upsert (st : List GameData) (d : GameData) (pid : String)
    (h : d.player_id = pid) :
    (upsert st d).find? (fun x => x.player_id == pid) = some d := by
  subst h
  exact find?_upsert_self st d

theorem mem_upsert {x : GameData} {st : List GameData} {d : GameData}
    (h : x ∈ upsert st d) : x = d ∨ x ∈ st := by
  induction st with
  | nil => simpa [upsert] using h
  | cons y ys ih =>
    by_cases hy : y.player_id == d.player_id
    · simp only [upsert, hy, if_true, List.mem_cons] at h
      rcases h with h | h
      · exact Or.inl h
      · exact Or.inr (List.mem_cons_of_mem _ h)
    · simp only [upsert, hy, Bool.false_eq_true, if_false, List.mem_cons] at h
      rcases h with h | h
      · exact Or.inr (h ▸ List.mem_cons_self _ _)
      · rcases ih h with h' | h'
        · exact Or.inl h'
        · exact Or.inr (List.mem_cons_of_mem _ h')

theorem deleteOne_of_find?_none {st : List GameData} {pid : String}
    (h : st.find? (fun d => d.player_id == pid) = none) :
    deleteOne st pid = (st, 0) := by
  induction st with
  | nil => rfl
  | cons d ds ih =>
    have hd : (d.player_id == pid) = false := by
      by_cases hb : d.player_id == pid
      · rw [List.find?_cons_of_pos _ (by simpa using hb)] at h
        exact absurd h (by simp)
      · simpa using hb
    rw [List.find?_cons_of_neg _ (by simp [hd])] at h
    simp [deleteOne, hd, ih h]

theorem deleteOne_count_of_find?_some {st : List GameData} {pid : String}
    {d : GameData} (h : st.find? (fun x => x.player_id == pid) = some d) :
    (deleteOne st pid).2 = 1 := by
  induction st with
  | nil => simp [List.find?] at h
  | cons x xs ih =>
    rw [List.find?_cons] at h
    by_cases hx : x.player_id == pid
    · simp [deleteOne, hx]
    · rw [show (x.player_id == pid) = false by simpa using hx] at h
      simp only [Bool.false_eq_true, if_false] at h
      simp only [deleteOne, show (x.player_id == pid) = false by simpa using hx,
        Bool.false_eq_true, if_false]
      exact ih h

/-- C4 helper: absence of a document in the deletion result, under the
uniqueness invariant on player identifiers. -/
theorem find?_deleteOne_none {st : List GameData} {pid : String}
    (hnodup : (st.map (fun d => d.player_id)).Nodup) :
    (deleteOne st pid).1.find? (fun x => x.player_id == pid) = none := by
  induction st with
  | nil => rfl
  | cons x xs ih =>
    simp only [List.map_cons, List.nodup_cons] at hnodup
    by_cases hx : x.player_id == pid
    · have hxeq : x.player_id = pid := by simpa using hx
      simp only [deleteOne, hx, if_true]
      rw [List.find?_eq_none]
      intro a ha
      intro hcon
      have : a.player_id = pid := by simpa using hcon
      exact hnodup.1 (hxeq ▸ this ▸ List.mem_map_of_mem (fun d => d.player_id) ha)
    · have hb : (x.player_id == pid) = false := by simpa using hx
      simp only [deleteOne, hb, Bool.false_eq_true, if_false]
      rw [List.find?_cons_of_neg _ (by simp [hb])]
      exact ih hnodup.2

/-! ### Claim C4: reads of an unwritten player return the default record -/

/-- C4: for every player identifier with no stored document, `getGameData`
returns exactly the default record: current_level = 1, max_level = 1,
total_score = 0, items_collected = 0, games_played = 0, last_played = none,
with the queried player identifier. -/
theorem getGameData_default (st : List GameData) (pid : String)
    (h : st.find? (fun d => d.player_id == pid) = none) :
    getGameData st pid = ⟨pid, 1, 1, 0, 0, 0, none⟩ := by
  simp [getGameData, h]

theorem getGameData_default_witness :
    ([⟨"a", 2, 3, 4, 5, 6, none⟩] : List GameData).find?
        (fun d => d.player_id == "p") = none ∧
      getGameData [⟨"a", 2, 3, 4, 5, 6, none⟩] "p" = ⟨"p", 1, 1, 0, 0, 0, none⟩ :=
  ⟨by decide, getGameData_default [⟨"a", 2, 3, 4, 5, 6, none⟩] "p" (by decide)⟩

/-! ### Claim C5: save followed by get returns the saved values -/

/-- C5: for every store state, saving a `GameData` value and then reading
the same player identifier returns exactly the saved field values, with
`last_played` stamped server-side with the current time regardless of the
caller-supplied `last_played`; since the equation holds for every prior
store, the result is the same whether or not a document existed before
(upsert, last write wins). -/
theorem save_then_get (st : List GameData) (gd : GameData) (now : Nat) :
    getGameData (saveGameData st gd now) gd.player_id =
      { gd with last_played := some now } := by
  unfold getGameData saveGameData
  rw [show (fun d : GameData => d.player_id == gd.player_id) =
      (fun d : GameData =>
        d.player_id == ({ gd with last_played := some now} : GameData).player_id)
    from rfl]
  rw [find?_upsert_self]

example :
    getGameData
        (saveGameData [⟨"p", 9, 9, 9, 9, 9, some 1⟩]
          ⟨"p", 3, 3, 150, 25, 5, none⟩ 42) "p" =
      ⟨"p", 3, 3, 150, 25, 5, some 42⟩ := by decide

/-! ### Claim C7: reset deletes the document and reports the count -/

/-- C7: resetting a player with a stored document removes it (under the
player-identifier uniqueness invariant the upsert semantics maintain) and
reports a deleted count of 1; resetting a player with no stored document
leaves the store unchanged, reports a deleted count of 0, and a subsequent
`getGameData` returns the default record. -/
theorem reset_player (st : List GameData) (pid : String) :
    (st.find? (fun d => d.player_id == pid) = none →
      deleteOne st pid = (st, 0) ∧
        getGameData (deleteOne st pid).1 pid = ⟨pid, 1, 1, 0, 0, 0, none⟩) ∧
    (∀ d, st.find? (fun x => x.player_id == pid) = some d →
      (deleteOne st pid).2 = 1 ∧
        ((st.map (fun x => x.player_id)).Nodup →
          (deleteOne st pid).1.find? (fun x => x.player_id == pid) = none)) := by
  constructor
  · intro h
    refine ⟨deleteOne_of_find?_none h, ?_⟩
    rw [deleteOne_of_find?_none h]
    exact getGameData_default st pid h
  · intro d h
    exact ⟨deleteOne_count_of_find?_some h, fun hn => find?_deleteOne_none hn⟩

theorem reset_player_witness :
    (deleteOne [] "p" = ([], 0) ∧
      getGameData (deleteOne [] "p").1 "p" = ⟨"p", 1, 1, 0, 0, 0, none⟩) ∧
    ((deleteOne [⟨"p", 1, 1, 0, 0, 0, none⟩] "p").2 = 1 ∧
      (deleteOne [⟨"p", 1, 1, 0, 0, 0, none⟩] "p").1.find?
        (fun x => x.player_id == "p") = none) := by
  refine ⟨(reset_player [] "p").1 (by decide), ?_⟩
  have h := (reset_player [⟨"p", 1, 1, 0, 0, 0, none⟩] "p").2
    ⟨"p", 1, 1, 0, 0, 0, none⟩ (by decide)
  exact ⟨h.1, h.2 (by decide)⟩

/-! ### Claim C1: the session merge policy -/

/-- C1: recording a session for a player with no prior document creates a
record whose current and max level are the reported level when `completed`
and 1 otherwise, whose score and items equal the session deltas exactly,
and whose games_played is 1; for a player with a prior document the level
fields update only when `completed` (max_level to the larger of the two),
score and items accumulate, and games_played increments unconditionally. -/
theorem recordGameSession_spec (st : List GameData) (s : GameSession)
    (now : Nat) :
    (st.find? (fun d => d.player_id == s.player_id) = none →
      ∃ nd, (recordGameSession st s now).1.find?
            (fun d => d.player_id == s.player_id) = some nd ∧
        nd.current_level = (if s.completed then s.level else 1) ∧
        nd.max_level = (if s.completed then s.level else 1) ∧
        nd.total_score = s.score ∧
        nd.items_collected = s.items_collected ∧
        nd.games_played = 1) ∧
    (∀ prior, st.find? (fun d => d.player_id == s.player_id) = some prior →
      ∃ nd, (recordGameSession st s now).1.find?
            (fun d => d.player_id == s.player_id) = some nd ∧
        nd.current_level =
          (if s.completed then s.level else prior.current_level) ∧
        nd.max_level =
          (if s.completed then max s.level prior.max_level
            else prior.max_level) ∧
        nd.total_score = prior.total_score + s.score ∧
        nd.items_collected = prior.items_collected + s.items_collected ∧
        nd.games_played = prior.games_played + 1) := by
  constructor
  · intro h
    exact ⟨⟨s.player_id, if s.completed then s.level else 1,
        if s.completed then s.level else 1, s.score, s.items_collected, 1,
        some now⟩,
      by simp only [recordGameSession, h]; exact find?_upsert st _ _ rfl,
      rfl, rfl, rfl, rfl, rfl⟩
  · intro prior h
    exact ⟨⟨s.player_id, if s.completed then s.level else prior.current_level,
        if s.completed then max s.level prior.max_level else prior.max_level,
        prior.total_score + s.score,
        prior.items_collected + s.items_collected,
        prior.games_played + 1, some now⟩,
      by simp only [recordGameSession, h]; exact find?_upsert st _ _ rfl,
      rfl, rfl, rfl, rfl, rfl⟩

theorem recordGameSession_spec_witness :
    (getGameData (recordGameSession [] ⟨"q", 5, 10, 2, true, none⟩ 9).1
        "q").games_played = 1 ∧
    (getGameData (recordGameSession [⟨"p", 2, 3, 100, 7, 4, some 1⟩]
        ⟨"p", 5, 10, 2, false, none⟩ 9).1 "p").total_score = 110 := by
  constructor
  · obtain ⟨nd, hf, -, -, -, -, h5⟩ :=
      (recordGameSession_spec [] ⟨"q", 5, 10, 2, true, none⟩ 9).1 (by decide)
    have hg : getGameData
        (recordGameSession [] ⟨"q", 5, 10, 2, true, none⟩ 9).1 "q" = nd := by
      simp [getGameData, hf]
    rw [hg, h5]
  · obtain ⟨nd, hf, -, -, h3, -, -⟩ :=
      (recordGameSession_spec [⟨"p", 2, 3, 100, 7, 4, some 1⟩]
        ⟨"p", 5, 10, 2, false, none⟩ 9).2 ⟨"p", 2, 3, 100, 7, 4, some 1⟩
        (by decide)
    have hg : getGameData (recordGameSession [⟨"p", 2, 3, 100, 7, 4, some 1⟩]
        ⟨"p", 5, 10, 2, false, none⟩ 9).1 "p" = nd := by
      simp [getGameData, hf]
    rw [hg, h3]
    decide

/-! ### Claim C2: competition-style player rank -/

/-- C2: for a player with a stored document, `getPlayerRank` returns 1 plus
the number of stored players with strictly greater max_level, or equal
max_level and strictly greater total_score; players tied on both fields
receive the same rank value; a player with no stored document gets `none`
(no numeric rank). -/
theorem getPlayerRank_spec (st : List GameData) (pid : String) :
    (∀ d, st.find? (fun x => x.player_id == pid) = some d →
      getPlayerRank st pid =
        some (st.countP (fun x => decide (d.max_level < x.max_level ∨
            (x.max_level = d.max_level ∧ d.total_score < x.total_score))) + 1,
          st.length)) ∧
    (st.find? (fun x => x.player_id == pid) = none →
      getPlayerRank st pid = none) ∧
    (∀ p2 d d2, st.find? (fun x => x.player_id == pid) = some d →
      st.find? (fun x => x.player_id == p2) = some d2 →
      d.max_level = d2.max_level → d.total_score = d2.total_score →
      (getPlayerRank st pid).map Prod.fst =
        (getPlayerRank st p2).map Prod.fst) := by
  refine ⟨?_, ?_, ?_⟩
  · intro d h
    simp only [getPlayerRank, h]
    rfl
  · intro h
    simp only [getPlayerRank, h]
  · intro p2 d d2 h h2 hml hts
    have hbt : betterThan d = betterThan d2 := by
      funext x
      simp only [betterThan, hml, hts]
    simp only [getPlayerRank, h, h2, hbt, Option.map_some]

theorem getPlayerRank_spec_witness :
    (getPlayerRank [⟨"a", 1, 4, 9, 0, 1, none⟩, ⟨"p", 1, 2, 5, 0, 1, none⟩,
        ⟨"b", 1, 2, 7, 0, 1, none⟩] "p" = some (3, 3)) ∧
    (getPlayerRank [⟨"a", 1, 4, 9, 0, 1, none⟩] "p" = none) ∧
    ((getPlayerRank [⟨"a", 1, 2, 5, 0, 1, none⟩, ⟨"p", 1, 2, 5, 0, 1, none⟩]
        "p").map Prod.fst =
      (getPlayerRank [⟨"a", 1, 2, 5, 0, 1, none⟩, ⟨"p", 1, 2, 5, 0, 1, none⟩]
        "a").map Prod.fst) := by
  refine ⟨?_, ?_, ?_⟩
  · have h := (getPlayerRank_spec [⟨"a", 1, 4, 9, 0, 1, none⟩,
      ⟨"p", 1, 2, 5, 0, 1, none⟩, ⟨"b", 1, 2, 7, 0, 1, none⟩] "p").1
      ⟨"p", 1, 2, 5, 0, 1, none⟩ (by decide)
    rw [h]
    decide
  · exact (getPlayerRank_spec [⟨"a", 1, 4, 9, 0, 1, none⟩] "p").2.1 (by decide)
  · exact (getPlayerRank_spec [⟨"a", 1, 2, 5, 0, 1, none⟩,
      ⟨"p", 1, 2, 5, 0, 1, none⟩] "p").2.2 "a" ⟨"p", 1, 2, 5, 0, 1, none⟩
      ⟨"a", 1, 2, 5, 0, 1, none⟩ (by decide) (by decide) rfl rfl

/-! ### Claim C3: the leaderboard query -/

/-- The leaderboard ordering carried over to formatted entries. -/
def lbEntryRel (a b : LBEntry) : Prop :=
  b.max_level < a.max_level ∨
    (a.max_level = b.max_level ∧ b.total_score ≤ a.total_score)

theorem length_annotateRanks (k : Nat) (l : List GameData) :
    (annotateRanks k l).length = l.length := by
  induction l generalizing k with
  | nil => rfl
  | cons d ds ih => simp [annotateRanks, ih]

theorem rank_annotateRanks (l : List GameData) :
    ∀ (k i : Nat) (e : LBEntry), (annotateRanks k l).get? i = some e →
      e.rank = k + i + 1 := by
  induction l with
  | nil =>
    intro k i e h
    simp [annotateRanks] at h
  | cons d ds ih =>
    intro k i e h
    cases i with
    | zero =>
      simp only [annotateRanks, List.get?_cons_zero,
        Option.some.injEq] at h
      subst h
      simp
    | succ j =>
      simp only [annotateRanks, List.get?_cons_succ] at h
      have := ih (k + 1) j e h
      omega

theorem mem_annotateRanks {e : LBEntry} {k : Nat} {l : List GameData}
    (h : e ∈ annotateRanks k l) :
    ∃ d ∈ l, e.max_level = d.max_level ∧ e.total_score = d.total_score := by
  induction l generalizing k with
  | nil => simp [annotateRanks] at h
  | cons d ds ih =>
    simp only [annotateRanks, List.mem_cons] at h
    rcases h with rfl | h
    · exact ⟨d, List.mem_cons_self d ds, rfl, rfl⟩
    · obtain ⟨d2, hd2, h1, h2⟩ := ih h
      exact ⟨d2, List.mem_cons_of_mem _ hd2, h1, h2⟩

theorem pairwise_annotateRanks {l : List GameData} (hl : l.Pairwise lbRel) :
    ∀ k, (annotateRanks k l).Pairwise lbEntryRel := by
  induction hl with
  | nil =>
    intro k
    simp [annotateRanks]
  | @cons d ds ha hp ih =>
    intro k
    simp only [annotateRanks, List.pairwise_cons]
    refine ⟨?_, ih (k + 1)⟩
    intro e he
    obtain ⟨d2, hd2, h1, h2⟩ := mem_annotateRanks he
    have hrel := ha d2 hd2
    unfold lbRel at hrel
    unfold lbEntryRel
    simp only [h1, h2]
    exact hrel

/-- C3: for every store state and limit, the leaderboard holds at most
`limit` entries, pairwise ordered by max_level descending with ties broken
by total_score descending, each entry carrying the 1-based sequential rank
equal to its position (so tied players still get distinct consecutive
ranks), together with the total number of stored players. -/
theorem getLeaderboard_spec (st : List GameData) (limit : Nat) :
    (getLeaderboard st limit).1.length ≤ limit ∧
    (getLeaderboard st limit).1.Pairwise lbEntryRel ∧
    (∀ i e, (getLeaderboard st limit).1.get? i = some e →
      e.rank = i + 1) ∧
    (getLeaderboard st limit).2 = st.length := by
  refine ⟨?_, ?_, ?_, rfl⟩
  · show (annotateRanks 0
        ((List.insertionSort lbRel st).take limit)).length ≤ limit
    rw [length_annotateRanks]
    exact List.length_take_le limit _
  · have hp : ((List.insertionSort lbRel st).take limit).Pairwise lbRel :=
      (List.sorted_insertionSort lbRel st).sublist (List.take_sublist limit _)
    exact pairwise_annotateRanks hp 0
  · intro i e h
    have := rank_annotateRanks _ 0 i e h
    omega

theorem getLeaderboard_spec_witness :
    (getLeaderboard [⟨"a", 1, 4, 9, 0, 1, none⟩, ⟨"b", 1, 2, 5, 0, 1, none⟩]
        2).1.length ≤ 2 ∧
    (⟨2, "b", 2, 5, 0, 1, none⟩ : LBEntry).rank = 1 + 1 :=
  ⟨(getLeaderboard_spec [⟨"a", 1, 4, 9, 0, 1, none⟩,
      ⟨"b", 1, 2, 5, 0, 1, none⟩] 2).1,
    (getLeaderboard_spec [⟨"a", 1, 4, 9, 0, 1, none⟩,
      ⟨"b", 1, 2, 5, 0, 1, none⟩] 2).2.2.1 1 ⟨2, "b", 2, 5, 0, 1, none⟩
      (by decide)⟩

/-! ### Claim C10: the numeric rank is between 1 and the player count -/

/-- C10: whenever `getPlayerRank` returns a numeric rank, the rank is at
least 1 and at most the total number of stored players (which is also the
returned total): the strictly-better count never counts the queried
player's own document. -/
theorem getPlayerRank_bounds (st : List GameData) (pid : String) (r t : Nat)
    (h : getPlayerRank st pid = some (r, t)) :
    1 ≤ r ∧ r ≤ t ∧ t = st.length := by
  unfold getPlayerRank at h
  cases hf : st.find? (fun x => x.player_id == pid) with
  | none => rw [hf] at h; exact absurd h (by simp)
  | some d =>
    rw [hf] at h
    have hr : st.countP (betterThan d) + 1 = r := by
      simpa using congrArg (fun o => (o.getD (0, 0)).1) h
    have ht : st.length = t := by
      simpa using congrArg (fun o => (o.getD (0, 0)).2) h
    have hmem : d ∈ st := List.mem_of_find?_eq_some hf
    have hself : betterThan d d = false := by
      simp [betterThan]
    have hlt : st.countP (betterThan d) < st.length := by
      have hsplit := List.length_eq_countP_add_countP (betterThan d) (l := st)
      have hpos : 0 < st.countP (fun a => decide ¬betterThan d a = true) := by
        rw [List.countP_pos_iff]
        exact ⟨d, hmem, by simp [hself]⟩
      omega
    omega

theorem getPlayerRank_bounds_witness :
    1 ≤ 2 ∧ 2 ≤ 2 ∧ 2 =
      ([⟨"a", 1, 4, 9, 0, 1, none⟩, ⟨"p", 1, 2, 5, 0, 1, none⟩] :
        List GameData).length :=
  getPlayerRank_bounds [⟨"a", 1, 4, 9, 0, 1, none⟩,
    ⟨"p", 1, 2, 5, 0, 1, none⟩] "p" 2 2 (by decide)

/-! ### Claim C6: aggregate statistics -/

theorem aggregateStats_cons (d : GameData) (ds : List GameData) :
    aggregateStats (d :: ds) =
      match aggregateStats ds with
      | none =>
          some (d.total_score, d.items_collected, d.games_played, d.max_level)
      | some (s, i, g, m) =>
          some (d.total_score + s, d.items_collected + i, d.games_played + g,
            max d.max_level m) := rfl

theorem aggregateStats_spec (st : List GameData) (hne : st ≠ []) :
    ∃ s i g m, aggregateStats st = some (s, i, g, m) ∧
      s = (st.map (fun d => d.total_score)).sum ∧
      i = (st.map (fun d => d.items_collected)).sum ∧
      g = (st.map (fun d => d.games_played)).sum ∧
      (∀ d ∈ st, d.max_level ≤ m) ∧ (∃ d ∈ st, m = d.max_level) := by
  induction st with
  | nil => exact absurd rfl hne
  | cons d ds ih =>
    cases ds with
    | nil =>
      refine ⟨d.total_score, d.items_collected, d.games_played, d.max_level,
        rfl, by simp, by simp, by simp, ?_, ?_⟩
      · intro x hx
        rcases List.mem_singleton.mp hx with rfl
        exact le_refl _
      · exact ⟨d, List.mem_singleton_self d, rfl⟩
    | cons e es =>
      obtain ⟨s, i, g, m, hagg, hs, hi, hg, hmax, hmem⟩ := ih (by simp)
      refine ⟨d.total_score + s, d.items_collected + i, d.games_played + g,
        max d.max_level m, ?_, ?_, ?_, ?_, ?_, ?_⟩
      · rw [aggregateStats_cons, hagg]
      · simp [hs]
      · simp [hi]
      · simp [hg]
      · intro x hx
        rcases List.mem_cons.mp hx with rfl | hx
        · exact le_max_left _ _
        · exact (hmax x hx).trans (le_max_right _ _)
      · rcases max_choice d.max_level m with hc | hc
        · exact ⟨d, List.mem_cons_self _ _, hc⟩
        · obtain ⟨x, hx, hxe⟩ := hmem
          exact ⟨x, List.mem_cons_of_mem _ hx, hc.trans hxe⟩

/-- C6: the statistics endpoint returns the player count, the sums of
total_score, items_collected and games_played over all stored documents,
the maximum max_level across players (when any player exists), and the
average score per player equal to the score sum divided by
`max (player count) 1`; on an empty collection it returns all-zero sums,
max_level_reached = 1 and average 0, with no division by zero. -/
theorem getGameStatistics_spec (st : List GameData) :
    getGameStatistics [] = ⟨0, 0, 0, 0, 1, 0⟩ ∧
    (getGameStatistics st).total_players = st.length ∧
    (getGameStatistics st).total_score =
      (st.map (fun d => d.total_score)).sum ∧
    (getGameStatistics st).total_items_collected =
      (st.map (fun d => d.items_collected)).sum ∧
    (getGameStatistics st).total_games_played =
      (st.map (fun d => d.games_played)).sum ∧
    (st ≠ [] →
      (∀ d ∈ st, d.max_level ≤ (getGameStatistics st).max_level_reached) ∧
      ∃ d ∈ st, (getGameStatistics st).max_level_reached = d.max_level) ∧
    (getGameStatistics st).average_score_per_player =
      (((st.map (fun d => d.total_score)).sum : Int) : ℚ) /
        (max st.length 1 : ℚ) := by
  cases st with
  | nil =>
    refine ⟨rfl, rfl, rfl, rfl, rfl, fun h => absurd rfl h, ?_⟩
    norm_num [getGameStatistics, aggregateStats]
  | cons d ds =>
    obtain ⟨s, i, g, m, hagg, hs, hi, hg, hmax, hmem⟩ :=
      aggregateStats_spec (d :: ds) (by simp)
    have hstats : getGameStatistics (d :: ds) =
        ⟨(d :: ds).length, s, i, g, m,
          (s : ℚ) / (max (d :: ds).length 1 : ℚ)⟩ := by
      unfold getGameStatistics
      rw [hagg]
    refine ⟨rfl, ?_, ?_, ?_, ?_, ?_, ?_⟩
    · rw [hstats]
    · rw [hstats]
      exact hs
    · rw [hstats]
      exact hi
    · rw [hstats]
      exact hg
    · intro hne
      rw [hstats]
      exact ⟨hmax, hmem⟩
    · rw [hstats, hs]

theorem getGameStatistics_spec_witness :
    (⟨"a", 1, 4, 9, 2, 3, none⟩ : GameData).max_level ≤
      (getGameStatistics [⟨"a", 1, 4, 9, 2, 3, none⟩]).max_level_reached ∧
    (getGameStatistics [⟨"a", 1, 4, 9, 2, 3, none⟩]).average_score_per_player =
      (((List.map (fun d => d.total_score)
          [(⟨"a", 1, 4, 9, 2, 3, none⟩ : GameData)]).sum : Int) : ℚ) /
        (max (List.length [(⟨"a", 1, 4, 9, 2, 3, none⟩ : GameData)]) 1 : ℚ) := by
  have h := getGameStatistics_spec [⟨"a", 1, 4, 9, 2, 3, none⟩]
  exact ⟨(h.2.2.2.2.2.1 (by decide)).1 ⟨"a", 1, 4, 9, 2, 3, none⟩ (by decide),
    h.2.2.2.2.2.2⟩

/-! ### Claim C8: monotonicity of max_level (corrected) -/

/-- C8 counterexample: `save_game_data` replaces the whole document with
the caller-supplied values, so a save carrying a smaller `max_level`
lowers the stored `max_level` of an existing player: the claim fails for
the save operation. -/
theorem save_max_level_not_mono :
    (getGameData (saveGameData [⟨"p", 5, 5, 50, 0, 1, none⟩]
        ⟨"p", 1, 1, 0, 0, 0, none⟩ 3) "p").max_level <
      (getGameData [⟨"p", 5, 5, 50, 0, 1, none⟩] "p").max_level := by decide

/-- C8 amended: for every player with a stored document,
`record_game_session` never decreases the stored `max_level`
(`max_level` becomes `max level prior` when the session is completed and
is left unchanged otherwise); the save endpoint instead overwrites
`max_level` with the caller-supplied value and can lower it. -/
theorem recordGameSession_max_level_mono (st : List GameData)
    (s : GameSession) (now : Nat) (prior : GameData)
    (h : st.find? (fun d => d.player_id == s.player_id) = some prior) :
    ∃ nd, (recordGameSession st s now).1.find?
        (fun d => d.player_id == s.player_id) = some nd ∧
      prior.max_level ≤ nd.max_level := by
  refine ⟨⟨s.player_id, if s.completed then s.level else prior.current_level,
      if s.completed then max s.level prior.max_level else prior.max_level,
      prior.total_score + s.score, prior.items_collected + s.items_collected,
      prior.games_played + 1, some now⟩,
    by simp only [recordGameSession, h]; exact find?_upsert st _ _ rfl, ?_⟩
  show prior.max_level ≤
    if s.completed then max s.level prior.max_level else prior.max_level
  by_cases hc : s.completed
  · simp only [hc, if_true]
    exact le_max_right _ _
  · simp only [hc, Bool.false_eq_true, if_false]
    exact le_refl _

theorem recordGameSession_max_level_mono_witness :
    (⟨"p", 2, 3, 0, 0, 1, none⟩ : GameData).max_level ≤
      (getGameData (recordGameSession [⟨"p", 2, 3, 0, 0, 1, none⟩]
          ⟨"p", 5, 0, 0, true, none⟩ 7).1 "p").max_level := by
  obtain ⟨nd, hf, hle⟩ := recordGameSession_max_level_mono
    [⟨"p", 2, 3, 0, 0, 1, none⟩] ⟨"p", 5, 0, 0, true, none⟩ 7
    ⟨"p", 2, 3, 0, 0, 1, none⟩ (by decide)
  have hg : getGameData (recordGameSession [⟨"p", 2, 3, 0, 0, 1, none⟩]
      ⟨"p", 5, 0, 0, true, none⟩ 7).1 "p" = nd := by
    simp [getGameData, hf]
  rw [hg]
  exact hle

/-! ### Claim C9: data-model field constraints (corrected) -/

/-- The data-model field constraints of the spec (section 3). -/
def ValidGameData (d : GameData) : Prop :=
  1 ≤ d.current_level ∧ 1 ≤ d.max_level ∧ 0 ≤ d.total_score ∧
    0 ≤ d.items_collected ∧ 0 ≤ d.games_played

instance (d : GameData) : Decidable (ValidGameData d) := by
  unfold ValidGameData; exact inferInstance

/-- The constraints a session report must itself satisfy for the merge to
preserve the data-model constraints. -/
def ValidGameSession (s : GameSession) : Prop :=
  1 ≤ s.level ∧ 0 ≤ s.score ∧ 0 ≤ s.items_collected

instance (s : GameSession) : Decidable (ValidGameSession s) := by
  unfold ValidGameSession; exact inferInstance

/-- C9 counterexample: neither pydantic model constrains its integer
fields, so a single session report with a negative score delta stores a
document with a negative `total_score`. -/
theorem session_negative_score :
    (getGameData (recordGameSession [] ⟨"p", 1, -5, 0, true, none⟩ 0).1
        "p").total_score < 0 := by decide

/-- C9 amended: stored documents satisfy the data-model constraints as
long as every applied operation carries constraint-respecting values
(level ≥ 1 and non-negative deltas for sessions, in-constraint fields for
saves); the endpoints themselves perform no validation, so out-of-range
inputs produce violating documents (see the counterexample). -/
theorem valid_preserved (st : List GameData) (s : GameSession)
    (gd : GameData) (now : Nat) (hst : ∀ d ∈ st, ValidGameData d) :
    (ValidGameSession s →
      ∀ d ∈ (recordGameSession st s now).1, ValidGameData d) ∧
    (ValidGameData gd →
      ∀ d ∈ saveGameData st gd now, ValidGameData d) := by
  constructor
  · intro hs d hd
    cases hf : st.find? (fun x => x.player_id == s.player_id) with
    | none =>
      simp only [recordGameSession, hf] at hd
      rcases mem_upsert hd with rfl | hm
      · refine ⟨?_, ?_, hs.2.1, hs.2.2, by norm_num⟩
        · show (1 : Int) ≤ if s.completed then s.level else 1
          by_cases hc : s.completed <;> simp [hc, hs.1]
        · show (1 : Int) ≤ if s.completed then s.level else 1
          by_cases hc : s.completed <;> simp [hc, hs.1]
      · exact hst d hm
    | some cur =>
      have hcur : ValidGameData cur := hst cur (List.mem_of_find?_eq_some hf)
      simp only [recordGameSession, hf] at hd
      rcases mem_upsert hd with rfl | hm
      · refine ⟨?_, ?_, add_nonneg hcur.2.2.1 hs.2.1,
          add_nonneg hcur.2.2.2.1 hs.2.2, ?_⟩
        · show (1 : Int) ≤
            if s.completed then s.level else cur.current_level
          by_cases hc : s.completed <;> simp [hc, hs.1, hcur.1]
        · show (1 : Int) ≤
            if s.completed then max s.level cur.max_level else cur.max_level
          by_cases hc : s.completed
          · simp only [hc, if_true]
            exact hcur.2.1.trans (le_max_right _ _)
          · simp only [hc, Bool.false_eq_true, if_false]
            exact hcur.2.1
        · show (0 : Int) ≤ cur.games_played + 1
          have := hcur.2.2.2.2
          omega
      · exact hst d hm
  · intro hgd d hd
    unfold saveGameData at hd
    rcases mem_upsert hd with rfl | hm
    · exact hgd
    · exact hst d hm

theorem valid_preserved_witness :
    ValidGameData (getGameData
      (recordGameSession [⟨"p", 1, 1, 0, 0, 0, none⟩]
        ⟨"p", 2, 5, 1, true, none⟩ 3).1 "p") := by
  have h := (valid_preserved [⟨"p", 1, 1, 0, 0, 0, none⟩]
    ⟨"p", 2, 5, 1, true, none⟩ ⟨"p", 2, 2, 9, 1, 1, none⟩ 3 (by decide)).1
    (by decide)
  exact h _ (by decide)
